import Mathlib

/-!
Verification development for the opencode-skillful skill registry and
resource resolver.  The definitions below are a shallow embedding of the
TypeScript sources: JS `Map`s become association lists (insertion order
preserved, keys unique in practice but nothing below assumes it), JS
strings become Lean `String`, fallible code returns `Option` / `Except`.
-/

namespace Opencode

/-- Resource entry stored in a skill's resource maps:
`{ absolutePath, mimeType }` as in `SkillResourceMap` of `types.ts`. -/
structure ResourceEntry where
  absolutePath : String
  mimeType : String
deriving DecidableEq, Repr

/-- A JS `Map<string, β>` as an association list in insertion order. -/
def ResourceMap : Type := List (String × ResourceEntry)

/-- `Map.get`: the value of the first (unique) pair whose key equals `key`. -/
def mapGet {β : Type} (m : List (String × β)) (key : String) : Option β :=
  match m with
  | [] => none
  | (k, v) :: rest => if k = key then some v else mapGet rest key

/-- The `Skill` record of `types.ts`, restricted to the fields the
registry controller, search and resolver consume.  The optional unified
`resources` map is modelled with `[]` standing for `undefined` (the
resolver treats an absent map and an empty map identically in
`resolveUnifiedResource`). -/
structure Skill where
  name : String
  fullPath : String
  toolName : String
  description : String
  content : String
  path : String
  scripts : List (String × ResourceEntry)
  references : List (String × ResourceEntry)
  assets : List (String × ResourceEntry)
  resources : List (String × ResourceEntry)
deriving DecidableEq, Repr

/-- Prefix test on character lists (kernel-reducible `startsWith`). -/
def listIsLead : List Char → List Char → Bool
  | [], _ => true
  | _ :: _, [] => false
  | a :: as, b :: bs => a = b && listIsLead as bs

/-- `String.startsWith`, computed on the underlying character lists. -/
def strStartsWith (s lead : String) : Bool :=
  listIsLead lead.data s.data

/-- `toLowerCase`, computed character-wise (ASCII letters, which is all
the source's type names and path candidates use). -/
def strToLower (s : String) : String :=
  String.mk (s.data.map Char.toLower)

/-- `split(sep)` on a character list, JS semantics: empty fields kept. -/
def splitChar (sep : Char) : List Char → List Char → List (List Char)
  | [], acc => [acc.reverse]
  | c :: rest, acc =>
    if c = sep then acc.reverse :: splitChar sep rest []
    else splitChar sep rest (c :: acc)

/-- `toPosixPath` of the resolver: replace every backslash by a forward
slash (the JS global single-character regex replace). -/
def toPosixPath (value : String) : String :=
  String.mk (value.data.map (fun c => if c = '\\' then '/' else c))

/-- Drop one maximal run of leading and of trailing slashes from a
character list. -/
def trimSlashes (cs : List Char) : List Char :=
  ((cs.dropWhile (fun c => c = '/')).reverse.dropWhile (fun c => c = '/')).reverse

/-- `normalizeResourcePath`: backslashes to slashes, then strip the
leading run of slashes and the trailing run of slashes. -/
def normalizeResourcePath (value : String) : String :=
  String.mk (trimSlashes (toPosixPath value).data)

/-- The `/^[A-Za-z]:[\\/]/` test: an ASCII letter, then a colon, then a
slash or backslash, at the very start of the raw value. -/
def isDriveLetterPath (value : String) : Bool :=
  match value.data with
  | a :: b :: c :: _ => a.isAlpha && (b = ':') && (c = '\\' || c = '/')
  | _ => false

/-- `isUnsafeResourcePath`: empty after normalization, or the raw value
is absolute (unix or windows style), or some `/`-separated segment of
the normalized path equals `..`. -/
def isUnsafeResourcePath (value : String) : Bool :=
  let normalized := normalizeResourcePath value
  if normalized = "" then true
  else if strStartsWith value "/" || isDriveLetterPath value then true
  else
    (((splitChar '/' normalized.data []).filter (fun seg => !(seg.isEmpty))).any
      (fun seg => seg = ['.', '.']))

/-- First loop of `findInMap`: probe each candidate, normalized, with
exact case; empty candidates are skipped. -/
def findExact (m : List (String × ResourceEntry)) (candidates : List String) :
    Option ResourceEntry :=
  match candidates with
  | [] => none
  | c :: rest =>
    let normalized := normalizeResourcePath c
    if normalized = "" then findExact m rest
    else
      match mapGet m normalized with
      | some e => some e
      | none => findExact m rest

/-- Lookup in the lowered map built by `findInMap`'s fallback: the JS
`Map.set` loop makes the LAST pair whose lower-cased key matches win. -/
def loweredMapGet (m : List (String × ResourceEntry)) (key : String) :
    Option ResourceEntry :=
  m.foldl (fun acc p => if strToLower p.1 = key then some p.2 else acc) none

/-- Second loop of `findInMap`: probe each candidate lower-cased against
the lower-cased map. -/
def findLowered (m : List (String × ResourceEntry)) (candidates : List String) :
    Option ResourceEntry :=
  match candidates with
  | [] => none
  | c :: rest =>
    let normalized := strToLower (normalizeResourcePath c)
    if normalized = "" then findLowered m rest
    else
      match loweredMapGet m normalized with
      | some e => some e
      | none => findLowered m rest

/-- `findInMap`: one exact-case pass over all candidates, then, only if
that pass missed, one case-insensitive pass. -/
def findInMap (m : List (String × ResourceEntry)) (candidates : List String) :
    Option ResourceEntry :=
  match findExact m candidates with
  | some e => some e
  | none => findLowered m candidates

/-- `legacyCandidates`: the normalized path as-is if it already carries
the type directory (case-insensitively), else as-is then prefixed. -/
def legacyCandidates (typeDir : String) (relativePath : String) : List String :=
  let normalized := normalizeResourcePath relativePath
  if normalized = "" then []
  else if strStartsWith (strToLower normalized) (strToLower typeDir ++ "/") then [normalized]
  else [normalized, typeDir ++ "/" ++ normalized]

/-- `resolveLegacyResource`: dispatch on the lower-cased type name,
singular or plural, to the matching legacy map. -/
def resolveLegacyResource (skill : Skill) (type : String) (relativePath : String) :
    Option ResourceEntry :=
  let loweredType := strToLower type
  if loweredType = "script" ∨ loweredType = "scripts" then
    findInMap skill.scripts (legacyCandidates "scripts" relativePath)
  else if loweredType = "asset" ∨ loweredType = "assets" then
    findInMap skill.assets (legacyCandidates "assets" relativePath)
  else if loweredType = "reference" ∨ loweredType = "references" then
    findInMap skill.references (legacyCandidates "references" relativePath)
  else none

/-- `resolveUnifiedResource`: lookups against the unified map with the
type-specific candidate conventions of the source. -/
def resolveUnifiedResource (skill : Skill) (type : String) (relativePath : String) :
    Option ResourceEntry :=
  let normalizedType := normalizeResourcePath type
  let normalizedRelative := normalizeResourcePath relativePath
  if skill.resources.isEmpty then none
  else
    let loweredType := strToLower normalizedType
    if loweredType = "workflow" ∨ loweredType = "workflows" then
      findInMap skill.resources
        [normalizedRelative,
         if normalizedRelative = "" then "Workflows" else "Workflows/" ++ normalizedRelative]
    else if loweredType = "tool" ∨ loweredType = "tools" then
      findInMap skill.resources
        [normalizedRelative,
         if normalizedRelative = "" then "Tools" else "Tools/" ++ normalizedRelative]
    else if loweredType = "resource" ∨ loweredType = "resources" ∨ loweredType = "" ∨
        loweredType = "doc" ∨ loweredType = "docs" then
      findInMap skill.resources
        ([normalizedRelative]
          ++ (if strStartsWith (strToLower normalizedRelative) "workflows/" then []
              else ["Workflows/" ++ normalizedRelative])
          ++ (if strStartsWith (strToLower normalizedRelative) "tools/" then []
              else ["Tools/" ++ normalizedRelative]))
    else
      let typedPath :=
        if normalizedRelative = "" then normalizedType
        else normalizedType ++ "/" ++ normalizedRelative
      findInMap skill.resources [typedPath, normalizedRelative]

/-- Left-biased choice on options, mirroring the sequential
`if (!resourceEntry) resourceEntry = ...` reassignments of the source. -/
def orOpt (a b : Option ResourceEntry) : Option ResourceEntry :=
  match a with
  | some e => some e
  | none => b

/-- The inferred-type branch of the resolver: when the normalized
relative path itself carries a legacy directory, retry the legacy lookup
with the type inferred from that directory. -/
def inferredTypeLookup (skill : Skill) (normalizedRelative : String) :
    Option ResourceEntry :=
  let loweredRelative := strToLower normalizedRelative
  if strStartsWith loweredRelative "references/" then
    resolveLegacyResource skill "reference" normalizedRelative
  else if strStartsWith loweredRelative "scripts/" then
    resolveLegacyResource skill "script" normalizedRelative
  else if strStartsWith loweredRelative "assets/" then
    resolveLegacyResource skill "asset" normalizedRelative
  else none

/-- The retry block guarded by
`['resource','resources','doc','docs'].includes(loweredRawType) && rawRelativePath`:
the inferred-type lookup, then an unconditional reference, script, asset
retry on the normalized relative path. -/
def legacyDirRetry (skill : Skill) (rawType rawRelativePath : String) :
    Option ResourceEntry :=
  let loweredRawType := strToLower rawType
  if (loweredRawType = "resource" ∨ loweredRawType = "resources" ∨
      loweredRawType = "doc" ∨ loweredRawType = "docs") ∧ rawRelativePath ≠ "" then
    let normalizedRelative := normalizeResourcePath rawRelativePath
    orOpt (inferredTypeLookup skill normalizedRelative)
      (orOpt (resolveLegacyResource skill "reference" normalizedRelative)
        (orOpt (resolveLegacyResource skill "script" normalizedRelative)
          (resolveLegacyResource skill "asset" normalizedRelative)))
  else none

/-- The last-resort block guarded by `rawRelativePath === ''`: treat the
type argument itself as the path. -/
def typeOnlyFallback (skill : Skill) (rawType rawRelativePath : String) :
    Option ResourceEntry :=
  if rawRelativePath = "" then
    orOpt (resolveUnifiedResource skill "resource" rawType)
      (orOpt (resolveLegacyResource skill "reference" rawType)
        (orOpt (resolveLegacyResource skill "script" rawType)
          (resolveLegacyResource skill "asset" rawType)))
  else none

/-- The entry-resolution chain of the returned closure, in source order:
legacy typed lookup, unified lookup, legacy-directory retry, type-only
fallback. -/
def resolveEntryChain (skill : Skill) (rawType rawRelativePath : String) :
    Option ResourceEntry :=
  orOpt (resolveLegacyResource skill rawType rawRelativePath)
    (orOpt (resolveUnifiedResource skill rawType rawRelativePath)
      (orOpt (legacyDirRetry skill rawType rawRelativePath)
        (typeOnlyFallback skill rawType rawRelativePath)))

/-- The resolver's tool-call arguments. -/
structure ResolveArgs where
  skill_name : String
  type : String
  relative_path : String
deriving DecidableEq, Repr

/-- `args.type || 'resource'`. -/
def rawTypeOf (args : ResolveArgs) : String :=
  if args.type = "" then "resource" else args.type

/-- `rawRelativePath || rawType`: the candidate path fed to the
security gate. -/
def lookupPathOf (args : ResolveArgs) : String :=
  if args.relative_path = "" then rawTypeOf args else args.relative_path

/-- The error cases thrown by the resolver, with exactly the data that
the corresponding TS template literals interpolate. -/
inductive ResolveError where
  | skillNotFound (skillName : String)
  | resourceNotFound (skillName : String) (rawType : String) (relativePath : String)
  | readFailed (absolutePath : String) (message : String)
deriving DecidableEq, Repr

/-- The error message strings of the source, one per throw site. -/
def renderError : ResolveError → String
  | ResolveError.skillNotFound n => "Skill not found: " ++ n
  | ResolveError.resourceNotFound n t p =>
      "Resource not found: Skill \"" ++ n ++ "\" does not have a " ++ t ++
      " at path \"" ++ p ++ "\""
  | ResolveError.readFailed ap msg =>
      "Failed to read resource at " ++ ap ++ ": " ++ msg

instance {ε α : Type} [DecidableEq ε] [DecidableEq α] : DecidableEq (Except ε α) := fun a b =>
  match a, b with
  | Except.ok x, Except.ok y =>
    if h : x = y then isTrue (by rw [h]) else isFalse (fun hc => h (Except.ok.inj hc))
  | Except.error x, Except.error y =>
    if h : x = y then isTrue (by rw [h]) else isFalse (fun hc => h (Except.error.inj hc))
  | Except.ok _, Except.error _ => isFalse (fun hc => Except.noConfusion hc)
  | Except.error _, Except.ok _ => isFalse (fun hc => Except.noConfusion hc)

/-- Successful resolver result. -/
structure ResolveOk where
  absolute_path : String
  content : String
  mimeType : String
deriving DecidableEq, Repr

/-- The final read step: `readSkillFile(resourceEntry.absolutePath)`,
wrapping a read failure with the absolute path in the message. -/
def finishEntry (readFile : String → Except String String) (entry : ResourceEntry) :
    Except ResolveError ResolveOk :=
  match readFile entry.absolutePath with
  | Except.ok content => Except.ok ⟨entry.absolutePath, content, entry.mimeType⟩
  | Except.error msg => Except.error (ResolveError.readFailed entry.absolutePath msg)

/-- The resolver closure returned by `createSkillResourceResolver`:
skill lookup, security gate, resolution chain, read. -/
def resolveResource (getSkill : String → Option Skill)
    (readFile : String → Except String String) (args : ResolveArgs) :
    Except ResolveError ResolveOk :=
  match getSkill args.skill_name with
  | none => Except.error (ResolveError.skillNotFound args.skill_name)
  | some skill =>
    if isUnsafeResourcePath (lookupPathOf args) then
      Except.error
        (ResolveError.resourceNotFound args.skill_name (rawTypeOf args) args.relative_path)
    else
      match resolveEntryChain skill (rawTypeOf args) args.relative_path with
      | none =>
        Except.error
          (ResolveError.resourceNotFound args.skill_name (rawTypeOf args) args.relative_path)
      | some entry => finishEntry readFile entry

/-- An entry is pre-indexed in one of the skill's four resource maps. -/
def entryInSkill (skill : Skill) (e : ResourceEntry) : Prop :=
  e ∈ skill.scripts.map Prod.snd ∨ e ∈ skill.references.map Prod.snd ∨
  e ∈ skill.assets.map Prod.snd ∨ e ∈ skill.resources.map Prod.snd

/-! ### Concrete fixtures used by witnesses and counterexamples -/

/-- The indexed entry for `references/guide.md` of the demo skill. -/
def guideEntry : ResourceEntry :=
  ⟨"/skills/test_skill/references/guide.md", "text/markdown"⟩

/-- A skill shaped like the `test_skill` fixture of the test suite. -/
def testSkill : Skill :=
  { name := "test-skill", fullPath := "/skills/test_skill", toolName := "test_skill",
    description := "A sufficiently long demo description.", content := "# Skill",
    path := "/skills/test_skill/SKILL.md",
    scripts := [("scripts/build.sh", ⟨"/skills/test_skill/scripts/build.sh", "application/x-sh"⟩)],
    references := [("references/guide.md", guideEntry)],
    assets := [("assets/logo.svg", ⟨"/skills/test_skill/assets/logo.svg", "image/svg+xml"⟩)],
    resources := [("README.md", ⟨"/skills/test_skill/README.md", "text/markdown"⟩)] }

/-- A one-skill registry lookup. -/
def demoGet : String → Option Skill :=
  fun n => if n = "test_skill" then some testSkill else none

/-- A file reader that always succeeds. -/
def demoRead : String → Except String String :=
  fun _ => Except.ok "# Guide"

/-- A file reader that always fails, as an I/O error would. -/
def failRead : String → Except String String :=
  fun _ => Except.error "EACCES: permission denied"

/-- A second entry stored under the bare key `guide.md`. -/
def bareGuideEntry : ResourceEntry :=
  ⟨"/skills/shadow/guide.md", "text/markdown"⟩

/-- A skill whose references map holds both a bare `guide.md` key and a
`references/guide.md` key with different targets. -/
def shadowSkill : Skill :=
  { name := "shadow", fullPath := "/skills/shadow", toolName := "shadow",
    description := "A sufficiently long demo description.", content := "# Shadow",
    path := "/skills/shadow/SKILL.md",
    scripts := [],
    references := [("guide.md", bareGuideEntry), ("references/guide.md", guideEntry)],
    assets := [], resources := [] }

/-- Registry lookup exposing the shadowing skill. -/
def shadowGet : String → Option Skill :=
  fun n => if n = "shadow" then some shadowSkill else none

/-! ### Registry controller (spec-modelled)

The implementation of `createSkillRegistryController` in
`SkillRegistry.ts` is not among the provided sources; only its tests and
its type signature are.  The definitions below are modelled from the
spec's component design for the controller. -/

/-- Modelled from the spec: the controller's mutable state, the alias
map from key to the stored skill record (record identity is
approximated by structural equality). -/
structure ControllerState where
  aliases : List (String × Skill)
deriving DecidableEq

/-- Modelled from the spec: kebab fold of an alias — underscores become
hyphens. -/
def kebabFold (s : String) : String :=
  String.mk (s.data.map (fun c => if c = '_' then '-' else c))

/-- Modelled from the spec: snake fold of an alias — hyphens become
underscores. -/
def snakeFold (s : String) : String :=
  String.mk (s.data.map (fun c => if c = '-' then '_' else c))

/-- Modelled from the spec: the derived alias set of a registration —
the key, the lower-cased tool name, the original name, and the kebab and
snake variants of both. -/
def aliasKeys (key : String) (skill : Skill) : List String :=
  [key, strToLower skill.toolName, skill.name,
   kebabFold (strToLower skill.toolName), snakeFold (strToLower skill.toolName),
   kebabFold skill.name, snakeFold skill.name]

/-- Modelled from the spec: an alias conflicts when it already resolves
to a different stored skill. -/
def aliasConflicts (st : ControllerState) (skill : Skill) (a : String) : Bool :=
  match mapGet st.aliases a with
  | some s => decide (s ≠ skill)
  | none => false

/-- Membership test for an alias key list. -/
def keyMem (ks : List String) (a : String) : Bool :=
  ks.any (fun k => decide (k = a))

/-- Modelled from the spec: `controller.set` — fail with the first
offending key whose alias is bound to a different skill (the
AliasCollisionError payload), else bind every derived alias to the
skill, replacing earlier bindings of those same keys. -/
def setSkill (st : ControllerState) (key : String) (skill : Skill) :
    Except String ControllerState :=
  match (aliasKeys key skill).find? (aliasConflicts st skill) with
  | some offending => Except.error offending
  | none =>
    Except.ok ⟨((aliasKeys key skill).map (fun a => (a, skill))) ++
      st.aliases.filter (fun p => !(keyMem (aliasKeys key skill) p.1))⟩

/-! ### Resource indexer (spec-modelled)

The bundle indexer of `SkillRegistry.ts` is likewise absent from the
provided sources; the unified-map construction below is modelled from
the spec, over the list of bundle-relative file paths a directory walk
yields. -/

/-- Suffix test on strings, computed on reversed character lists. -/
def strEndsWith (s tail : String) : Bool :=
  listIsLead tail.data.reverse s.data.reverse

/-- Modelled from the spec: the fixed extension-to-MIME table with the
`application/octet-stream` default. -/
def mimeForPath (p : String) : String :=
  if strEndsWith p ".md" then "text/markdown"
  else if strEndsWith p ".sh" then "application/x-sh"
  else if strEndsWith p ".svg" then "image/svg+xml"
  else if strEndsWith p ".ts" then "application/typescript"
  else "application/octet-stream"

/-- Modelled from the spec: a bundle-relative path is excluded from the
unified map when it lies under `USER/`, `WORK/`, `node_modules/`, or any
dot-directory. -/
def isExcludedResourcePath (p : String) : Bool :=
  strStartsWith p "USER/" || strStartsWith p "WORK/" || strStartsWith p "node_modules/" ||
  (((splitChar '/' p.data []).dropLast).any (fun seg => listIsLead ['.'] seg))

/-- Modelled from the spec: the unified resource map of a bundle —
every walked file except the manifest and the excluded prefixes, keyed
by its bundle-relative path with case preserved. -/
def indexUnifiedResources (bundleRoot manifestRelPath : String) (files : List String) :
    List (String × ResourceEntry) :=
  (files.filter (fun p => decide (p ≠ manifestRelPath) && !(isExcludedResourcePath p))).map
    (fun p => (p, ⟨bundleRoot ++ "/" ++ p, mimeForPath p⟩))

/-! ### Manifest noise stripping (spec-modelled)

`stripLeadingHtmlCommentBlocks` of `SkillRegistry.ts` is absent from the
provided sources; only its test suite is.  The model below follows the
spec's parser pipeline steps 1 and 2. -/

/-- Blank characters that may separate leading comment blocks. -/
def isBlankChar (c : Char) : Bool :=
  c = ' ' || c = '\t' || c = '\r' || c = '\n'

/-- Drop the run of blank characters at the head. -/
def dropBlankLead (cs : List Char) : List Char :=
  cs.dropWhile isBlankChar

/-- Scan past the closing delimiter of an HTML comment; `none` if the
comment is unterminated. -/
def dropThroughClose : List Char → Option (List Char)
  | '-' :: '-' :: '>' :: rest => some rest
  | _ :: rest => dropThroughClose rest
  | [] => none

/-- Modelled from the spec: consume one leading HTML comment block,
allowing only blank separation before its opening delimiter. -/
def consumeCommentBlock (cs : List Char) : Option (List Char) :=
  match dropBlankLead cs with
  | '<' :: '!' :: '-' :: '-' :: rest => dropThroughClose rest
  | _ => none

/-- Modelled from the spec: strip leading comment blocks one at a time;
the fuel bounds the number of blocks.  Text whose leading content is not
a comment block is returned untouched; once at least one block has been
stripped, the blank separation before the following content goes too. -/
def stripCommentsLoop : Nat → List Char → List Char
  | 0, cs => cs
  | Nat.succ n, cs =>
    match consumeCommentBlock cs with
    | none => cs
    | some rest => stripCommentsLoop n (dropBlankLead rest)

/-- Modelled from the spec: strip a leading UTF-8 byte-order mark. -/
def stripBOM (s : String) : String :=
  match s.data with
  | c :: rest => if c = '\uFEFF' then String.mk rest else s
  | [] => s

/-- Modelled from the spec: `stripLeadingHtmlCommentBlocks` — a BOM
strip followed by the leading-comment-block strip. -/
def stripLeadingHtmlCommentBlocks (s : String) : String :=
  String.mk (stripCommentsLoop (stripBOM s).data.length (stripBOM s).data)

/-! ### Search ranker (spec-modelled)

No search implementation is among the provided sources; the matching
predicate and include/exclude filtering below are modelled from the
spec's search ranker design. -/

/-- Modelled from the spec: case-insensitive substring test. -/
def containsCI (haystack needle : String) : Bool :=
  (List.range ((strToLower haystack).data.length + 1)).any
    (fun i => listIsLead (strToLower needle).data ((strToLower haystack).data.drop i))

/-- Modelled from the spec: a term matches a skill when it is a
case-insensitive substring of the name, the tool name or the
description. -/
def skillMatchesTerm (sk : Skill) (term : String) : Bool :=
  containsCI sk.name term || containsCI sk.toolName term || containsCI sk.description term

/-- Modelled from the spec: parse a query string into include and
exclude term lists; a `-`-led term excludes, empty terms are
discarded. -/
def parseQueryTerms (q : String) : List String × List String :=
  let terms := ((splitChar ' ' q.data []).map String.mk).filter (fun t => decide (t ≠ ""))
  (terms.filter (fun t => !(strStartsWith t "-")),
   ((terms.filter (fun t => strStartsWith t "-")).map
       (fun t => String.mk t.data.tail)).filter (fun t => decide (t ≠ "")))

/-- Modelled from the spec: the match set of a search — skills matching
every include term and no exclude term, in registration order. -/
def searchSkillList (skills : List Skill) (q : String) : List Skill :=
  skills.filter (fun sk =>
    ((parseQueryTerms q).1.all (skillMatchesTerm sk)) &&
    !((parseQueryTerms q).2.any (skillMatchesTerm sk)))

/-! ### Further fixtures for the spec-modelled components -/

/-- A minimal mock skill, as the test suite's `createMockSkill`. -/
def mkMockSkill (name toolName : String) : Skill :=
  { name := name, fullPath := "/skills/" ++ name, toolName := toolName,
    description := "A sufficiently long demo description.", content := "",
    path := "/skills/" ++ name ++ "/SKILL.md",
    scripts := [], references := [], assets := [], resources := [] }

/-- First registration of the alias-collision test. -/
def fooBarSkill : Skill := mkMockSkill "foo-bar" "foo_bar"

/-- Second, distinct skill whose aliases collide with the first. -/
def fooBarV2Skill : Skill := mkMockSkill "foo-bar-v2" "foo-bar"

/-- The controller state after registering `fooBarSkill` under
`foo_bar` into an empty controller. -/
def fooState : ControllerState :=
  ⟨[("foo_bar", fooBarSkill), ("foo_bar", fooBarSkill), ("foo-bar", fooBarSkill),
    ("foo-bar", fooBarSkill), ("foo_bar", fooBarSkill), ("foo-bar", fooBarSkill),
    ("foo_bar", fooBarSkill)]⟩

/-- The walked relative paths of a PAI-shaped bundle, including files
that must be excluded from the unified map. -/
def paiFiles : List String :=
  ["SKILL.md", "Workflows/Onboarding.md", "Tools/Inference.ts", "CoreStack.md",
   "SYSTEM/PAISYSTEMARCHITECTURE.md", "Components/10-intro.md",
   "USER/README.md", "WORK/notes.md", "node_modules/fake/readme.md", ".git/config"]

/-- The noise-free manifest text of the banner test. -/
def cleanManifest : String :=
  "---\nname: demo\ndescription: A sufficiently long demo description.\n---\n# Skill"

/-- Manifest text led by a generated banner comment. -/
def bannerManifest : String :=
  "<!--\nGenerated banner\n-->\n" ++ cleanManifest

/-- The noise-free manifest text of the remaining strip tests. -/
def cleanManifest2 : String :=
  "---\nname: demo\ndescription: A sufficiently long demo description.\n---"

/-- Manifest text led by two comment blocks separated by a blank line. -/
def twoBlockManifest : String :=
  "<!-- one -->\n\n<!-- two -->\n" ++ cleanManifest2

/-- Manifest text led by a UTF-8 byte-order mark. -/
def bomManifest : String := "\uFEFF" ++ cleanManifest2

/-- Text whose leading content is prose, not a comment block. -/
def introManifest : String :=
  "# Intro\n---\nname: demo\ndescription: A sufficiently long demo description.\n---"

/-- A skill whose identifying fields contain `auth` but not `oauth`. -/
def authSkill : Skill := mkMockSkill "auth-helper" "auth_helper"

/-! ### Theorems -/

theorem mapGet_mem_values {β : Type} (m : List (String × β)) (key : String) (v : β)
    (h : mapGet m key = some v) : v ∈ m.map Prod.snd := by
  induction m with
  | nil => exact absurd h (by simp [mapGet])
  | cons p rest ih =>
    obtain ⟨k, w⟩ := p
    rw [mapGet] at h
    by_cases hk : k = key
    · rw [if_pos hk] at h
      injection h with h
      simp [h]
    · rw [if_neg hk] at h
      exact List.mem_cons_of_mem _ (ih h)

theorem loweredFold_mem (m : List (String × ResourceEntry)) (key : String)
    (acc : Option ResourceEntry) (v : ResourceEntry)
    (h : m.foldl (fun acc p => if strToLower p.1 = key then some p.2 else acc) acc = some v) :
    v ∈ m.map Prod.snd ∨ acc = some v := by
  induction m generalizing acc with
  | nil => exact Or.inr h
  | cons p rest ih =>
    obtain ⟨k, w⟩ := p
    rw [List.foldl_cons] at h
    rcases ih _ h with hmem | hacc
    · exact Or.inl (List.mem_cons_of_mem _ hmem)
    · by_cases hk : strToLower k = key
      · rw [if_pos hk] at hacc
        injection hacc with hacc
        exact Or.inl (List.mem_cons.mpr (Or.inl hacc.symm))
      · rw [if_neg hk] at hacc
        exact Or.inr hacc

theorem loweredMapGet_mem (m : List (String × ResourceEntry)) (key : String)
    (v : ResourceEntry) (h : loweredMapGet m key = some v) : v ∈ m.map Prod.snd := by
  rcases loweredFold_mem m key none v h with hmem | hacc
  · exact hmem
  · exact absurd hacc (by simp)

theorem findExact_mem (m : List (String × ResourceEntry)) (cs : List String)
    (e : ResourceEntry) (h : findExact m cs = some e) : e ∈ m.map Prod.snd := by
  induction cs with
  | nil => exact absurd h (by simp [findExact])
  | cons c rest ih =>
    rw [findExact] at h
    split at h
    · exact ih h
    · split at h
      · next e' heq =>
        injection h with h
        exact h ▸ mapGet_mem_values m _ e' heq
      · exact ih h

theorem findLowered_mem (m : List (String × ResourceEntry)) (cs : List String)
    (e : ResourceEntry) (h : findLowered m cs = some e) : e ∈ m.map Prod.snd := by
  induction cs with
  | nil => exact absurd h (by simp [findLowered])
  | cons c rest ih =>
    rw [findLowered] at h
    split at h
    · exact ih h
    · split at h
      · next e' heq =>
        injection h with h
        exact h ▸ loweredMapGet_mem m _ e' heq
      · exact ih h

theorem findInMap_mem (m : List (String × ResourceEntry)) (cs : List String)
    (e : ResourceEntry) (h : findInMap m cs = some e) : e ∈ m.map Prod.snd := by
  rw [findInMap] at h
  split at h
  · next e' heq =>
    injection h with h
    exact h ▸ findExact_mem m cs e' heq
  · exact findLowered_mem m cs e h

theorem resolveLegacyResource_mem (skill : Skill) (type relativePath : String)
    (e : ResourceEntry) (h : resolveLegacyResource skill type relativePath = some e) :
    entryInSkill skill e := by
  simp only [resolveLegacyResource] at h
  split at h
  · exact Or.inl (findInMap_mem _ _ _ h)
  · split at h
    · exact Or.inr (Or.inr (Or.inl (findInMap_mem _ _ _ h)))
    · split at h
      · exact Or.inr (Or.inl (findInMap_mem _ _ _ h))
      · exact absurd h (by simp)

theorem resolveUnifiedResource_mem (skill : Skill) (type relativePath : String)
    (e : ResourceEntry) (h : resolveUnifiedResource skill type relativePath = some e) :
    entryInSkill skill e := by
  simp only [resolveUnifiedResource] at h
  split at h
  · exact absurd h (by simp)
  · split at h
    · exact Or.inr (Or.inr (Or.inr (findInMap_mem _ _ _ h)))
    · split at h
      · exact Or.inr (Or.inr (Or.inr (findInMap_mem _ _ _ h)))
      · split at h
        · exact Or.inr (Or.inr (Or.inr (findInMap_mem _ _ _ h)))
        · exact Or.inr (Or.inr (Or.inr (findInMap_mem _ _ _ h)))

theorem orOpt_eq_some (a b : Option ResourceEntry) (e : ResourceEntry)
    (h : orOpt a b = some e) : a = some e ∨ (a = none ∧ b = some e) := by
  cases a with
  | some x => exact Or.inl h
  | none => exact Or.inr ⟨rfl, h⟩

theorem inferredTypeLookup_mem (skill : Skill) (nr : String) (e : ResourceEntry)
    (h : inferredTypeLookup skill nr = some e) : entryInSkill skill e := by
  simp only [inferredTypeLookup] at h
  split at h
  · exact resolveLegacyResource_mem _ _ _ _ h
  · split at h
    · exact resolveLegacyResource_mem _ _ _ _ h
    · split at h
      · exact resolveLegacyResource_mem _ _ _ _ h
      · exact absurd h (by simp)

theorem legacyDirRetry_mem (skill : Skill) (rawType rawRelativePath : String)
    (e : ResourceEntry) (h : legacyDirRetry skill rawType rawRelativePath = some e) :
    entryInSkill skill e := by
  simp only [legacyDirRetry] at h
  split at h
  · rcases orOpt_eq_some _ _ _ h with h1 | ⟨_, h1⟩
    · exact inferredTypeLookup_mem _ _ _ h1
    · rcases orOpt_eq_some _ _ _ h1 with h2 | ⟨_, h2⟩
      · exact resolveLegacyResource_mem _ _ _ _ h2
      · rcases orOpt_eq_some _ _ _ h2 with h3 | ⟨_, h3⟩
        · exact resolveLegacyResource_mem _ _ _ _ h3
        · exact resolveLegacyResource_mem _ _ _ _ h3
  · exact absurd h (by simp)

theorem typeOnlyFallback_mem (skill : Skill) (rawType rawRelativePath : String)
    (e : ResourceEntry) (h : typeOnlyFallback skill rawType rawRelativePath = some e) :
    entryInSkill skill e := by
  simp only [typeOnlyFallback] at h
  split at h
  · rcases orOpt_eq_some _ _ _ h with h1 | ⟨_, h1⟩
    · exact resolveUnifiedResource_mem _ _ _ _ h1
    · rcases orOpt_eq_some _ _ _ h1 with h2 | ⟨_, h2⟩
      · exact resolveLegacyResource_mem _ _ _ _ h2
      · rcases orOpt_eq_some _ _ _ h2 with h3 | ⟨_, h3⟩
        · exact resolveLegacyResource_mem _ _ _ _ h3
        · exact resolveLegacyResource_mem _ _ _ _ h3
  · exact absurd h (by simp)

theorem resolveEntryChain_mem (skill : Skill) (rawType rawRelativePath : String)
    (e : ResourceEntry) (h : resolveEntryChain skill rawType rawRelativePath = some e) :
    entryInSkill skill e := by
  unfold resolveEntryChain at h
  rcases orOpt_eq_some _ _ _ h with h1 | ⟨_, h1⟩
  · exact resolveLegacyResource_mem _ _ _ _ h1
  · rcases orOpt_eq_some _ _ _ h1 with h2 | ⟨_, h2⟩
    · exact resolveUnifiedResource_mem _ _ _ _ h2
    · rcases orOpt_eq_some _ _ _ h2 with h3 | ⟨_, h3⟩
      · exact legacyDirRetry_mem _ _ _ _ h3
      · exact typeOnlyFallback_mem _ _ _ _ h3

/-- C1: for every registered skill, a resolver call whose candidate path
(the relative path, or the type when the relative path is empty) trips
the security gate fails with the resource-not-found error carrying only
the caller-supplied context, for EVERY file reader (so no file is ever
read); and the gate trips on `/etc/passwd`, `C:\Windows\x`,
`../../secret` and the empty candidate. -/
theorem C1_unsafe_candidate_paths_rejected :
    (∀ (getSkill : String → Option Skill) (readFile : String → Except String String)
        (args : ResolveArgs) (skill : Skill),
        getSkill args.skill_name = some skill →
        isUnsafeResourcePath (lookupPathOf args) = true →
        resolveResource getSkill readFile args =
          Except.error
            (ResolveError.resourceNotFound args.skill_name (rawTypeOf args)
              args.relative_path)) ∧
    isUnsafeResourcePath "/etc/passwd" = true ∧
    isUnsafeResourcePath "C:\\Windows\\x" = true ∧
    isUnsafeResourcePath "../../secret" = true ∧
    isUnsafeResourcePath "" = true := by
  refine ⟨?_, by decide, by decide, by decide, by decide⟩
  intro getSkill readFile args skill hg hun
  unfold resolveResource
  rw [hg]
  simp [hun]

/-- Witness for C1 at a concrete registry, reader and call. -/
theorem C1_unsafe_candidate_paths_rejected_witness :
    demoGet "test_skill" = some testSkill ∧
    isUnsafeResourcePath "../../secret" = true ∧
    resolveResource demoGet demoRead ⟨"test_skill", "reference", "../../secret"⟩ =
      Except.error (ResolveError.resourceNotFound "test_skill" "reference" "../../secret") :=
  ⟨by decide, by decide,
    C1_unsafe_candidate_paths_rejected.1 demoGet demoRead
      ⟨"test_skill", "reference", "../../secret"⟩ testSkill (by decide) (by decide)⟩

/-- C2: every successful resolver call returns the absolutePath and
mimeType of an entry already pre-indexed in one of the named skill's
resource maps, and its content is the reader's output at exactly that
pre-indexed absolute path — no path is constructed from the caller's
type or relative path. -/
theorem C2_success_returns_preindexed_entry (getSkill : String → Option Skill)
    (readFile : String → Except String String) (args : ResolveArgs) (r : ResolveOk)
    (h : resolveResource getSkill readFile args = Except.ok r) :
    ∃ skill e, getSkill args.skill_name = some skill ∧ entryInSkill skill e ∧
      r.absolute_path = e.absolutePath ∧ r.mimeType = e.mimeType ∧
      readFile e.absolutePath = Except.ok r.content := by
  unfold resolveResource at h
  split at h
  · exact absurd h (by simp)
  · next skill hg =>
    split at h
    · exact absurd h (by simp)
    · split at h
      · exact absurd h (by simp)
      · next entry hc =>
        unfold finishEntry at h
        split at h
        · next content hr =>
          injection h with h
          subst h
          exact ⟨skill, entry, hg, resolveEntryChain_mem _ _ _ _ hc, rfl, rfl, hr⟩
        · exact absurd h (by simp)

/-- Witness for C2 at a concrete successful call. -/
theorem C2_success_returns_preindexed_entry_witness :
    ∃ skill e, demoGet "test_skill" = some skill ∧ entryInSkill skill e ∧
      "/skills/test_skill/references/guide.md" = e.absolutePath ∧
      "text/markdown" = e.mimeType ∧
      demoRead e.absolutePath = Except.ok "# Guide" :=
  C2_success_returns_preindexed_entry demoGet demoRead
    ⟨"test_skill", "reference", "guide.md"⟩
    ⟨"/skills/test_skill/references/guide.md", "# Guide", "text/markdown"⟩ (by decide)

/-- C5 counterexample: a resolver call that fails because the underlying
read fails surfaces an error carrying the entry's absolute filesystem
path — a string that is none of the caller-supplied skill name, type and
relative path, and that the rendered message exposes verbatim. -/
theorem C5_counterexample_read_error_leaks_absolute_path :
    resolveResource demoGet failRead ⟨"test_skill", "reference", "guide.md"⟩ =
      Except.error (ResolveError.readFailed "/skills/test_skill/references/guide.md"
        "EACCES: permission denied") ∧
    renderError (ResolveError.readFailed "/skills/test_skill/references/guide.md"
        "EACCES: permission denied") =
      "Failed to read resource at /skills/test_skill/references/guide.md: EACCES: permission denied" ∧
    "/skills/test_skill/references/guide.md" ≠ "test_skill" ∧
    "/skills/test_skill/references/guide.md" ≠ "reference" ∧
    "/skills/test_skill/references/guide.md" ≠ "guide.md" :=
  ⟨by decide, by decide, by decide, by decide, by decide⟩

/-- C5 (amended): an unsafe-path or no-matching-entry failure carries
only the caller-supplied skill name, requested type (the caller's type,
or `resource` when empty) and relative path; a read failure instead
carries the pre-indexed entry's absolute path together with the
reader's message. -/
theorem C5_amended_error_context (getSkill : String → Option Skill)
    (readFile : String → Except String String) (args : ResolveArgs) (err : ResolveError)
    (h : resolveResource getSkill readFile args = Except.error err) :
    err = ResolveError.skillNotFound args.skill_name ∨
    err = ResolveError.resourceNotFound args.skill_name (rawTypeOf args) args.relative_path ∨
    ∃ skill e msg, getSkill args.skill_name = some skill ∧ entryInSkill skill e ∧
      readFile e.absolutePath = Except.error msg ∧
      err = ResolveError.readFailed e.absolutePath msg := by
  unfold resolveResource at h
  split at h
  · injection h with h
    exact Or.inl h.symm
  · next skill hg =>
    split at h
    · injection h with h
      exact Or.inr (Or.inl h.symm)
    · split at h
      · injection h with h
        exact Or.inr (Or.inl h.symm)
      · next entry hc =>
        unfold finishEntry at h
        split at h
        · exact absurd h (by simp)
        · next msg hr =>
          injection h with h
          exact Or.inr (Or.inr ⟨skill, entry, msg, hg,
            resolveEntryChain_mem _ _ _ _ hc, hr, h.symm⟩)

/-- Witness for the amended C5 at a concrete failing read. -/
theorem C5_amended_error_context_witness :
    ResolveError.readFailed "/skills/test_skill/references/guide.md"
        "EACCES: permission denied" =
      ResolveError.skillNotFound "test_skill" ∨
    ResolveError.readFailed "/skills/test_skill/references/guide.md"
        "EACCES: permission denied" =
      ResolveError.resourceNotFound "test_skill" "reference" "guide.md" ∨
    ∃ skill e msg, demoGet "test_skill" = some skill ∧ entryInSkill skill e ∧
      failRead e.absolutePath = Except.error msg ∧
      ResolveError.readFailed "/skills/test_skill/references/guide.md"
          "EACCES: permission denied" =
        ResolveError.readFailed e.absolutePath msg :=
  C5_amended_error_context demoGet failRead ⟨"test_skill", "reference", "guide.md"⟩
    (ResolveError.readFailed "/skills/test_skill/references/guide.md"
      "EACCES: permission denied") (by decide)

/-- C7 counterexample: a skill whose references map holds
`references/guide.md` but also a shadowing bare `guide.md` key resolves
the unprefixed request to the bare entry, not to the same target as the
prefixed request, so the claim fails as universally stated. -/
theorem C7_counterexample_shadowed_bare_key :
    mapGet shadowSkill.references "references/guide.md" = some guideEntry ∧
    resolveResource shadowGet demoRead ⟨"shadow", "reference", "guide.md"⟩ =
      Except.ok ⟨"/skills/shadow/guide.md", "# Guide", "text/markdown"⟩ ∧
    resolveResource shadowGet demoRead ⟨"shadow", "reference", "references/guide.md"⟩ =
      Except.ok ⟨"/skills/test_skill/references/guide.md", "# Guide", "text/markdown"⟩ ∧
    ("/skills/shadow/guide.md" : String) ≠ "/skills/test_skill/references/guide.md" :=
  ⟨by decide, by decide, by decide, by decide⟩

/-- C7 (amended): when the references map holds `references/guide.md`
and no bare `guide.md` key, the unprefixed and prefixed requests resolve
to the same entry, via the legacy candidate list that tries the path
as-is and then type-directory-prefixed. -/
theorem C7_amended_legacy_fallback_equivalence (getSkill : String → Option Skill)
    (readFile : String → Except String String) (name : String) (skill : Skill)
    (e : ResourceEntry) (c : String)
    (hg : getSkill name = some skill)
    (href : mapGet skill.references "references/guide.md" = some e)
    (hbare : mapGet skill.references "guide.md" = none)
    (hread : readFile e.absolutePath = Except.ok c) :
    resolveResource getSkill readFile ⟨name, "reference", "guide.md"⟩ =
      Except.ok ⟨e.absolutePath, c, e.mimeType⟩ ∧
    resolveResource getSkill readFile ⟨name, "reference", "references/guide.md"⟩ =
      Except.ok ⟨e.absolutePath, c, e.mimeType⟩ ∧
    legacyCandidates "references" "guide.md" = ["guide.md", "references/guide.md"] := by
  have hfe1 : findExact skill.references (legacyCandidates "references" "guide.md") =
      some e := by
    rw [show legacyCandidates "references" "guide.md" =
        ["guide.md", "references/guide.md"] from by decide]
    simp only [findExact]
    rw [show normalizeResourcePath "guide.md" = "guide.md" from by decide,
      show normalizeResourcePath "references/guide.md" = "references/guide.md" from by decide,
      if_neg (by decide : ¬("guide.md" = "")),
      if_neg (by decide : ¬("references/guide.md" = "")), hbare, href]
  have hfe2 : findExact skill.references
      (legacyCandidates "references" "references/guide.md") = some e := by
    rw [show legacyCandidates "references" "references/guide.md" =
        ["references/guide.md"] from by decide]
    simp only [findExact]
    rw [show normalizeResourcePath "references/guide.md" = "references/guide.md" from by decide,
      if_neg (by decide : ¬("references/guide.md" = "")), href]
  have hleg1 : resolveLegacyResource skill "reference" "guide.md" = some e := by
    simp only [resolveLegacyResource]
    rw [if_neg (by decide), if_neg (by decide), if_pos (by decide), findInMap, hfe1]
  have hleg2 : resolveLegacyResource skill "reference" "references/guide.md" = some e := by
    simp only [resolveLegacyResource]
    rw [if_neg (by decide), if_neg (by decide), if_pos (by decide), findInMap, hfe2]
  refine ⟨?_, ?_, by decide⟩
  · unfold resolveResource
    rw [hg]
    rw [show lookupPathOf ⟨name, "reference", "guide.md"⟩ = "guide.md" from rfl,
      show rawTypeOf ⟨name, "reference", "guide.md"⟩ = "reference" from rfl,
      show isUnsafeResourcePath "guide.md" = false from by decide]
    simp only [Bool.false_eq_true, if_false]
    rw [resolveEntryChain, hleg1]
    simp only [orOpt]
    unfold finishEntry
    rw [hread]
  · unfold resolveResource
    rw [hg]
    rw [show lookupPathOf ⟨name, "reference", "references/guide.md"⟩ =
        "references/guide.md" from rfl,
      show rawTypeOf ⟨name, "reference", "references/guide.md"⟩ = "reference" from rfl,
      show isUnsafeResourcePath "references/guide.md" = false from by decide]
    simp only [Bool.false_eq_true, if_false]
    rw [resolveEntryChain, hleg2]
    simp only [orOpt]
    unfold finishEntry
    rw [hread]

/-- Witness for the amended C7 at the demo skill. -/
theorem C7_amended_legacy_fallback_equivalence_witness :
    resolveResource demoGet demoRead ⟨"test_skill", "reference", "guide.md"⟩ =
      Except.ok ⟨"/skills/test_skill/references/guide.md", "# Guide", "text/markdown"⟩ ∧
    resolveResource demoGet demoRead ⟨"test_skill", "reference", "references/guide.md"⟩ =
      Except.ok ⟨"/skills/test_skill/references/guide.md", "# Guide", "text/markdown"⟩ ∧
    legacyCandidates "references" "guide.md" = ["guide.md", "references/guide.md"] :=
  C7_amended_legacy_fallback_equivalence demoGet demoRead "test_skill" testSkill
    guideEntry "# Guide" (by decide) (by decide) (by decide) (by decide)

/-- C8: map lookup probes every candidate with exact case first, falls
back to one case-insensitive pass only when the exact pass misses, finds
`Workflows/Onboarding.md` under `workflows/onboarding.md`, and an
exact-case entry wins over a case-folded one. -/
theorem C8_exact_then_case_insensitive :
    (∀ (m : List (String × ResourceEntry)) (cs : List String) (e : ResourceEntry),
        findExact m cs = some e → findInMap m cs = some e) ∧
    (∀ (m : List (String × ResourceEntry)) (cs : List String),
        findExact m cs = none → findInMap m cs = findLowered m cs) ∧
    findInMap [("Workflows/Onboarding.md", guideEntry)] ["workflows/onboarding.md"] =
      some guideEntry ∧
    findInMap [("README.md", bareGuideEntry), ("readme.md", guideEntry)] ["README.md"] =
      some bareGuideEntry ∧
    findLowered [("README.md", bareGuideEntry), ("readme.md", guideEntry)] ["README.md"] =
      some guideEntry ∧
    findInMap [("a", bareGuideEntry), ("b", guideEntry)] ["A", "b"] = some guideEntry := by
  refine ⟨?_, ?_, by decide, by decide, by decide, by decide⟩
  · intro m cs e h
    rw [findInMap, h]
  · intro m cs h
    rw [findInMap, h]

/-- Witness for C8 at concrete maps. -/
theorem C8_exact_then_case_insensitive_witness :
    findInMap [("x", guideEntry)] ["x"] = some guideEntry ∧
    findInMap [("Workflows/Onboarding.md", guideEntry)] ["workflows/onboarding.md"] =
      findLowered [("Workflows/Onboarding.md", guideEntry)] ["workflows/onboarding.md"] :=
  ⟨C8_exact_then_case_insensitive.1 [("x", guideEntry)] ["x"] guideEntry (by decide),
    C8_exact_then_case_insensitive.2.1 [("Workflows/Onboarding.md", guideEntry)]
      ["workflows/onboarding.md"] (by decide)⟩

/-- C9 counterexample: for the type argument `script` and the
references-prefixed path, both the typed legacy lookup and the unified
lookup miss, the inferred-type legacy lookup would hit, yet the resolver
reports resource-not-found — no inferred-type retry happens for types
outside resource/resources/doc/docs. -/
theorem C9_counterexample_no_retry_for_script_type :
    resolveResource demoGet demoRead ⟨"test_skill", "script", "references/guide.md"⟩ =
      Except.error (ResolveError.resourceNotFound "test_skill" "script" "references/guide.md") ∧
    inferredTypeLookup testSkill (normalizeResourcePath "references/guide.md") =
      some guideEntry ∧
    strStartsWith (strToLower (normalizeResourcePath "references/guide.md"))
      "references/" = true :=
  ⟨by decide, by decide, by decide⟩

/-- C9 (amended): for type arguments in the resource/resources/doc/docs
family (the empty type defaults to `resource`), a non-empty safe
relative path, and failing typed-legacy and unified lookups, the
resolver continues with the legacy lookup inferred from the path's
legacy directory before reporting not-found: an inferred-lookup hit is
read and returned. -/
theorem C9_amended_inferred_type_retry (getSkill : String → Option Skill)
    (readFile : String → Except String String) (args : ResolveArgs) (skill : Skill)
    (e : ResourceEntry)
    (hg : getSkill args.skill_name = some skill)
    (htype : strToLower (rawTypeOf args) = "resource" ∨
      strToLower (rawTypeOf args) = "resources" ∨
      strToLower (rawTypeOf args) = "doc" ∨ strToLower (rawTypeOf args) = "docs")
    (hrp : args.relative_path ≠ "")
    (hsafe : isUnsafeResourcePath (lookupPathOf args) = false)
    (hleg : resolveLegacyResource skill (rawTypeOf args) args.relative_path = none)
    (huni : resolveUnifiedResource skill (rawTypeOf args) args.relative_path = none)
    (hinf : inferredTypeLookup skill (normalizeResourcePath args.relative_path) = some e) :
    resolveResource getSkill readFile args = finishEntry readFile e := by
  have hchain : resolveEntryChain skill (rawTypeOf args) args.relative_path = some e := by
    rw [resolveEntryChain, hleg, huni]
    simp only [orOpt]
    simp only [legacyDirRetry]
    rw [if_pos ⟨htype, hrp⟩, hinf]
    simp only [orOpt]
  unfold resolveResource
  rw [hg, hsafe]
  simp only [Bool.false_eq_true, if_false]
  rw [hchain]

theorem mapGet_selfmap_append (B : List String) (s : Skill)
    (rest : List (String × Skill)) (a : String) (ha : a ∈ B) :
    mapGet (B.map (fun x => (x, s)) ++ rest) a = some s := by
  induction B with
  | nil => cases ha
  | cons b B ih =>
    simp only [List.map_cons, List.cons_append, mapGet]
    by_cases hb : b = a
    · rw [if_pos hb]
    · rw [if_neg hb]
      rcases List.mem_cons.mp ha with h | h
      · exact absurd h.symm hb
      · exact ih h

theorem setSkill_ok_structure (st : ControllerState) (k : String) (s : Skill)
    (st' : ControllerState) (h : setSkill st k s = Except.ok st') :
    (aliasKeys k s).find? (aliasConflicts st s) = none ∧
    st' = ⟨((aliasKeys k s).map (fun a => (a, s))) ++
      st.aliases.filter (fun p => !(keyMem (aliasKeys k s) p.1))⟩ := by
  unfold setSkill at h
  split at h
  · exact absurd h (by simp)
  · next hfind =>
    injection h with h
    exact ⟨hfind, h.symm⟩

theorem setSkill_installs (st : ControllerState) (k : String) (s : Skill)
    (st' : ControllerState) (h : setSkill st k s = Except.ok st') (a : String)
    (ha : a ∈ aliasKeys k s) : mapGet st'.aliases a = some s := by
  obtain ⟨-, hst⟩ := setSkill_ok_structure st k s st' h
  rw [hst]
  exact mapGet_selfmap_append _ _ _ _ ha

theorem setSkill_collision (st : ControllerState) (k2 : String) (s2 : Skill)
    (a : String) (s1 : Skill) (ha : a ∈ aliasKeys k2 s2)
    (hb : mapGet st.aliases a = some s1) (hne : s1 ≠ s2) :
    ∃ off s', setSkill st k2 s2 = Except.error off ∧ off ∈ aliasKeys k2 s2 ∧
      mapGet st.aliases off = some s' ∧ s' ≠ s2 := by
  have hpa : aliasConflicts st s2 a = true := by
    unfold aliasConflicts
    rw [hb]
    exact decide_eq_true hne
  cases hf : (aliasKeys k2 s2).find? (aliasConflicts st s2) with
  | none => exact absurd hpa (by simpa using List.find?_eq_none.mp hf a ha)
  | some off =>
    have hoffp : aliasConflicts st s2 off = true := List.find?_some hf
    have hoffm : off ∈ aliasKeys k2 s2 := List.mem_of_find?_eq_some hf
    unfold aliasConflicts at hoffp
    cases hmg : mapGet st.aliases off with
    | none => rw [hmg] at hoffp; exact absurd hoffp (by simp)
    | some s' =>
      rw [hmg] at hoffp
      refine ⟨off, s', ?_, hoffm, hmg, of_decide_eq_true hoffp⟩
      unfold setSkill
      rw [hf]

theorem keyMem_of_mem (A : List String) (a : String) (ha : a ∈ A) :
    keyMem A a = true :=
  List.any_eq_true.mpr ⟨a, ha, decide_eq_true rfl⟩

theorem filter_selfmap_keyMem_nil (B : List String) (s : Skill) (A : List String)
    (hsub : ∀ a ∈ B, keyMem A a = true) :
    (B.map (fun a => (a, s))).filter (fun p => !(keyMem A p.1)) = [] := by
  induction B with
  | nil => rfl
  | cons b B ih =>
    simp only [List.map_cons, List.filter_cons]
    rw [hsub b (List.mem_cons_self b B)]
    simp only [Bool.not_true, Bool.false_eq_true, if_false]
    exact ih (fun a ha => hsub a (List.mem_cons_of_mem _ ha))

theorem filter_filter_self {α : Type} (l : List α) (p : α → Bool) :
    (l.filter p).filter p = l.filter p := by
  induction l with
  | nil => rfl
  | cons x l ih =>
    by_cases hx : p x = true
    · rw [List.filter_cons, if_pos hx, List.filter_cons, if_pos hx, ih]
    · rw [List.filter_cons, if_neg hx, ih]

theorem setSkill_idempotent (st : ControllerState) (k : String) (s : Skill)
    (st' : ControllerState) (h : setSkill st k s = Except.ok st') :
    setSkill st' k s = Except.ok st' := by
  obtain ⟨-, hst⟩ := setSkill_ok_structure st k s st' h
  have hfind2 : (aliasKeys k s).find? (aliasConflicts st' s) = none := by
    apply List.find?_eq_none.mpr
    intro a ha
    unfold aliasConflicts
    rw [setSkill_installs st k s st' h a ha]
    simp
  unfold setSkill
  rw [hfind2, hst]
  rw [List.filter_append,
    filter_selfmap_keyMem_nil _ _ _ (fun a ha => keyMem_of_mem _ _ ha),
    List.nil_append, filter_filter_self]

/-- C3: after a successful registration, a second distinct skill whose
derived alias set overlaps the first fails with the collision error
carrying an offending key bound to a different skill, the first skill
stays reachable under the shared alias, and re-registering the first
skill under its key succeeds and leaves the state unchanged. -/
theorem C3_alias_collision_detection (st st1 : ControllerState)
    (k1 k2 a : String) (s1 s2 : Skill)
    (hset : setSkill st k1 s1 = Except.ok st1)
    (hne : s1 ≠ s2)
    (ha2 : a ∈ aliasKeys k2 s2)
    (ha1 : a ∈ aliasKeys k1 s1) :
    (∃ off s', setSkill st1 k2 s2 = Except.error off ∧ off ∈ aliasKeys k2 s2 ∧
      mapGet st1.aliases off = some s' ∧ s' ≠ s2) ∧
    mapGet st1.aliases a = some s1 ∧
    setSkill st1 k1 s1 = Except.ok st1 := by
  have hin := setSkill_installs st k1 s1 st1 hset a ha1
  exact ⟨setSkill_collision st1 k2 s2 a s1 ha2 hin hne, hin,
    setSkill_idempotent st k1 s1 st1 hset⟩

/-- Witness for C3 at the kebab/snake collision of the test suite. -/
theorem C3_alias_collision_detection_witness :
    (∃ off s', setSkill fooState "foo-bar" fooBarV2Skill = Except.error off ∧
      off ∈ aliasKeys "foo-bar" fooBarV2Skill ∧
      mapGet fooState.aliases off = some s' ∧ s' ≠ fooBarV2Skill) ∧
    mapGet fooState.aliases "foo-bar" = some fooBarSkill ∧
    setSkill fooState "foo_bar" fooBarSkill = Except.ok fooState :=
  C3_alias_collision_detection ⟨[]⟩ fooState "foo_bar" "foo-bar" "foo-bar"
    fooBarSkill fooBarV2Skill (by decide) (by decide) (by decide) (by decide)

theorem mapGet_some_key_mem {β : Type} (m : List (String × β)) (key : String)
    (v : β) (h : mapGet m key = some v) : key ∈ m.map Prod.fst := by
  induction m with
  | nil => exact absurd h (by simp [mapGet])
  | cons p rest ih =>
    obtain ⟨k, w⟩ := p
    rw [mapGet] at h
    by_cases hk : k = key
    · exact List.mem_cons.mpr (Or.inl hk.symm)
    · rw [if_neg hk] at h
      exact List.mem_cons_of_mem _ (ih h)

/-- C4: no key of the unified resource map built for a bundle is the
manifest path, and none lies under `USER/`, `WORK/`, `node_modules/` or
a dot-directory, whatever files exist on disk. -/
theorem C4_unified_map_exclusions (bundleRoot manifestRelPath : String)
    (files : List String) (k : String) (v : ResourceEntry)
    (h : mapGet (indexUnifiedResources bundleRoot manifestRelPath files) k = some v) :
    k ≠ manifestRelPath ∧ isExcludedResourcePath k = false := by
  have hk := mapGet_some_key_mem _ _ _ h
  unfold indexUnifiedResources at hk
  rw [List.map_map] at hk
  have hk2 : k ∈ files.filter
      (fun p => decide (p ≠ manifestRelPath) && !(isExcludedResourcePath p)) := by
    simpa using hk
  have hp := List.of_mem_filter hk2
  rw [Bool.and_eq_true] at hp
  exact ⟨of_decide_eq_true hp.1, by simpa using hp.2⟩

/-- Witness for C4 at the PAI-shaped bundle walk. -/
theorem C4_unified_map_exclusions_witness :
    mapGet (indexUnifiedResources "/skills/PAI" "SKILL.md" paiFiles)
        "Workflows/Onboarding.md" =
      some ⟨"/skills/PAI/Workflows/Onboarding.md", "text/markdown"⟩ ∧
    ("Workflows/Onboarding.md" ≠ "SKILL.md" ∧
      isExcludedResourcePath "Workflows/Onboarding.md" = false) ∧
    mapGet (indexUnifiedResources "/skills/PAI" "SKILL.md" paiFiles) "SKILL.md" = none ∧
    mapGet (indexUnifiedResources "/skills/PAI" "SKILL.md" paiFiles) "USER/README.md" = none ∧
    mapGet (indexUnifiedResources "/skills/PAI" "SKILL.md" paiFiles) "WORK/notes.md" = none ∧
    mapGet (indexUnifiedResources "/skills/PAI" "SKILL.md" paiFiles)
      "node_modules/fake/readme.md" = none ∧
    mapGet (indexUnifiedResources "/skills/PAI" "SKILL.md" paiFiles) ".git/config" = none :=
  ⟨by decide,
    C4_unified_map_exclusions "/skills/PAI" "SKILL.md" paiFiles "Workflows/Onboarding.md"
      ⟨"/skills/PAI/Workflows/Onboarding.md", "text/markdown"⟩ (by decide),
    by decide, by decide, by decide, by decide, by decide⟩

/-- C6: stripping removes exactly a leading BOM and the leading HTML
comment blocks (also when separated by blank lines), recovering the
noise-free manifest text; text whose leading content is not a comment
block is returned unchanged. -/
theorem C6_strip_leading_html_comment_blocks :
    (∀ s : String, stripBOM s = s → consumeCommentBlock s.data = none →
      stripLeadingHtmlCommentBlocks s = s) ∧
    stripLeadingHtmlCommentBlocks bannerManifest = cleanManifest ∧
    stripLeadingHtmlCommentBlocks twoBlockManifest = cleanManifest2 ∧
    stripLeadingHtmlCommentBlocks bomManifest = cleanManifest2 ∧
    stripLeadingHtmlCommentBlocks introManifest = introManifest ∧
    stripLeadingHtmlCommentBlocks cleanManifest = cleanManifest := by
  refine ⟨?_, by decide, by decide, by decide, by decide, by decide⟩
  intro s hbom hnc
  unfold stripLeadingHtmlCommentBlocks
  rw [hbom]
  cases hl : s.data.length with
  | zero =>
    simp only [stripCommentsLoop]
  | succ n =>
    simp only [stripCommentsLoop]
    rw [hnc]

/-- Witness for C6 at the prose-led text of the test suite. -/
theorem C6_strip_leading_html_comment_blocks_witness :
    stripBOM introManifest = introManifest ∧
    consumeCommentBlock introManifest.data = none ∧
    stripLeadingHtmlCommentBlocks introManifest = introManifest :=
  ⟨by decide, by decide,
    C6_strip_leading_html_comment_blocks.1 introManifest (by decide) (by decide)⟩

theorem searchSkillList_mem (skills : List Skill) (q : String) (sk : Skill) :
    sk ∈ searchSkillList skills q ↔
      sk ∈ skills ∧ (∀ t ∈ (parseQueryTerms q).1, skillMatchesTerm sk t = true) ∧
        (∀ t ∈ (parseQueryTerms q).2, skillMatchesTerm sk t = false) := by
  unfold searchSkillList
  rw [List.mem_filter, Bool.and_eq_true, List.all_eq_true]
  constructor
  · rintro ⟨h1, h2, h3⟩
    refine ⟨h1, h2, ?_⟩
    have hfa : (parseQueryTerms q).2.any (skillMatchesTerm sk) = false := by
      cases hx : (parseQueryTerms q).2.any (skillMatchesTerm sk)
      · rfl
      · rw [hx] at h3
        exact absurd h3 (by simp)
    intro t ht
    have hnt := List.any_eq_false.mp hfa t ht
    cases hb : skillMatchesTerm sk t
    · rfl
    · exact absurd hb hnt
  · rintro ⟨h1, h2, h3⟩
    refine ⟨h1, h2, ?_⟩
    have hfa : (parseQueryTerms q).2.any (skillMatchesTerm sk) = false :=
      List.any_eq_false.mpr (fun x hx => by simp [h3 x hx])
    rw [hfa]
    rfl

/-- C10: a skill is in the search result exactly when it is registered,
every include term matches its name, tool name or description
case-insensitively, and no exclude term does; for the query
`auth -oauth` this means containing `auth` and not `oauth`, and zero
include terms leave only the exclusion filter. -/
theorem C10_search_include_exclude_semantics :
    (∀ (skills : List Skill) (q : String) (sk : Skill),
      sk ∈ searchSkillList skills q ↔
        sk ∈ skills ∧ (∀ t ∈ (parseQueryTerms q).1, skillMatchesTerm sk t = true) ∧
          (∀ t ∈ (parseQueryTerms q).2, skillMatchesTerm sk t = false)) ∧
    parseQueryTerms "auth -oauth" = (["auth"], ["oauth"]) ∧
    (∀ (skills : List Skill) (sk : Skill),
      sk ∈ searchSkillList skills "auth -oauth" ↔
        sk ∈ skills ∧ skillMatchesTerm sk "auth" = true ∧
          skillMatchesTerm sk "oauth" = false) ∧
    (∀ (skills : List Skill) (q : String) (sk : Skill),
      (parseQueryTerms q).1 = [] →
      (sk ∈ searchSkillList skills q ↔
        sk ∈ skills ∧ (∀ t ∈ (parseQueryTerms q).2, skillMatchesTerm sk t = false))) := by
  refine ⟨searchSkillList_mem, by decide, ?_, ?_⟩
  · intro skills sk
    rw [searchSkillList_mem]
    rw [show parseQueryTerms "auth -oauth" = (["auth"], ["oauth"]) from by decide]
    simp
  · intro skills q sk hq
    rw [searchSkillList_mem, hq]
    simp

/-- Witness for C10: a skill matching `auth` and not `oauth` is in the
result set of the query `auth -oauth`. -/
theorem C10_search_include_exclude_semantics_witness :
    authSkill ∈ searchSkillList [authSkill] "auth -oauth" :=
  (C10_search_include_exclude_semantics.2.2.1 [authSkill] authSkill).mpr
    ⟨by simp, by decide, by decide⟩

/-- Witness for the amended C9: a `resource`-typed request with a
references-prefixed path is served through the inferred-type retry. -/
theorem C9_amended_inferred_type_retry_witness :
    resolveResource demoGet demoRead ⟨"test_skill", "resource", "references/guide.md"⟩ =
      finishEntry demoRead guideEntry ∧
    finishEntry demoRead guideEntry =
      Except.ok ⟨"/skills/test_skill/references/guide.md", "# Guide", "text/markdown"⟩ :=
  ⟨C9_amended_inferred_type_retry demoGet demoRead
      ⟨"test_skill", "resource", "references/guide.md"⟩ testSkill guideEntry
      (by decide) (by decide) (by decide) (by decide) (by decide) (by decide) (by decide),
    by decide⟩

end Opencode
